import Mathlib

/-!
Shallow embedding of the interactsh server core (pkg/server/server.go and
pkg/server/http_server.go) together with the library helpers those files call,
and proofs of the specification claims about them.

Strings are modelled at rune (character) level; all inputs exercised by the
claims are ASCII, where Go's byte indexing and rune indexing coincide.
-/

namespace Interactsh

/-- ASCII lowercase of one character (the fragment of Go's `strings.ToLower`
relevant to the ASCII inputs of the claims). -/
def lowerChar (c : Char) : Char :=
  if 'A' ≤ c ∧ c ≤ 'Z' then Char.ofNat (c.toNat + 32) else c

/-- ASCII uppercase of one character. -/
def upperChar (c : Char) : Char :=
  if 'a' ≤ c ∧ c ≤ 'z' then Char.ofNat (c.toNat - 32) else c

/-- Model of `strings.ToLower` (ASCII fragment). -/
def lowerStr (s : String) : String :=
  String.mk (s.toList.map lowerChar)

/-- Character count of a string; equals Go's byte `len` on ASCII input. -/
def strLen (s : String) : Nat :=
  s.toList.length

/-- Model of the Go slice `s[:n]` when `n ≤ len(s)` (callers guard the bound). -/
def strTake (s : String) (n : Nat) : String :=
  String.mk (s.toList.take n)

/-- Model of Go's `strings.Split(s, ".")` at character level: split on one
separator character, keeping empty fields. -/
def splitOnCharList (c : Char) : List Char → List (List Char)
  | [] => [[]]
  | a :: rest =>
    match splitOnCharList c rest with
    | [] => [[]]
    | g :: gs => if a = c then [] :: g :: gs else (a :: g) :: gs

/-- Model of `strings.Split(URL, ".")`. -/
def splitOnDot (s : String) : List String :=
  (splitOnCharList '.' s.toList).map String.mk

/-- Model of `strings.Join(parts, sep)`. -/
def strJoin (sep : String) : List String → String
  | [] => ""
  | [x] => x
  | x :: rest => x ++ sep ++ strJoin sep rest

/-- Accumulator loop behind `splitAny` (the `strings.FieldsFunc` semantics of
`stringsutil.SplitAny`: separators are any character of the cutset and empty
chunks are dropped). -/
def fieldsAux (seps : List Char) : List Char → List Char → List (List Char)
  | [], acc => if acc = [] then [] else [acc.reverse]
  | c :: rest, acc =>
    if c ∈ seps then
      (if acc = [] then fieldsAux seps rest [] else acc.reverse :: fieldsAux seps rest [])
    else fieldsAux seps rest (c :: acc)

/-- Model of `stringsutil.SplitAny(s, cutset)`: `strings.FieldsFunc` with the
predicate "character belongs to the cutset". -/
def splitAny (s : String) (seps : List Char) : List String :=
  (fieldsAux seps s.toList []).map String.mk

/-- Model of `stringsutil.SlideWithLength(s, l)`: if the string is shorter than
the window it is yielded whole, otherwise every width-`l` window in order. -/
def slideWithLength (s : String) (l : Nat) : List String :=
  if s.toList.length < l then [s]
  else (List.range (s.toList.length - l + 1)).map
    (fun i => String.mk ((s.toList.drop i).take l))

/-- Model of case-insensitive prefix test `stringsutil.HasPrefixI` (ASCII). -/
def hasPrefixI (s p : String) : Bool :=
  (lowerStr p).toList.isPrefixOf (lowerStr s).toList

/-- Model of case-insensitive suffix test `stringsutil.HasSuffixI` (ASCII). -/
def hasSuffixI (s p : String) : Bool :=
  (lowerStr p).toList.isSuffixOf (lowerStr s).toList

/-- Model of `strings.EqualFold` on the ASCII inputs of the claims. -/
def equalFoldASCII (s t : String) : Bool :=
  lowerStr s == lowerStr t

/-- Model of `strings.TrimPrefix(s, p)`. -/
def trimPrefixStr (s p : String) : String :=
  if p.toList.isPrefixOf s.toList then String.mk (s.toList.drop p.toList.length) else s

/-- First index at which `sub` occurs in `cs`, if any (`strings.Index` core). -/
def idxAux (sub : List Char) : List Char → Option Nat
  | [] => if sub = [] then some 0 else none
  | c :: rest =>
    if sub.isPrefixOf (c :: rest) then some 0
    else (idxAux sub rest).map (· + 1)

/-- Model of `strings.Index(s, sub)`: first occurrence or `-1`. -/
def strIndexOf (s sub : String) : Int :=
  match idxAux sub.toList s.toList with
  | some n => (n : Int)
  | none => -1

/-- Last index of character `c` in `cs`, if any. -/
def lastIdxAux (c : Char) : List Char → Option Nat
  | [] => none
  | a :: rest =>
    match lastIdxAux c rest with
    | some n => some (n + 1)
    | none => if a = c then some 0 else none

/-- Model of `strings.LastIndex(s, sep)` for a one-character separator:
last occurrence or `-1`. -/
def strLastIndexOf (s : String) (c : Char) : Int :=
  match lastIdxAux c s.toList with
  | some n => (n : Int)
  | none => -1

/-- Model of the Go slice expression `s[a:b]`: defined exactly when
`0 ≤ a ≤ b ≤ len(s)`; out-of-range or inverted bounds are a runtime panic,
modelled as `none`. -/
def goStringSlice (s : String) (a b : Int) : Option String :=
  if 0 ≤ a ∧ a ≤ b ∧ b ≤ (strLen s : Int) then
    some (String.mk ((s.toList.drop a.toNat).take (b.toNat - a.toNat)))
  else none

/-- Signed-digit-string reading behind `strconv.Atoi`: optional sign followed by
at least one decimal digit, no other characters; `none` on syntax error. -/
def parseIntCore (s : String) : Option Int :=
  let core : List Char → Option Nat := fun ds =>
    if ds ≠ [] ∧ ds.all (fun c => '0' ≤ c ∧ c ≤ '9') then
      some (ds.foldl (fun n c => n * 10 + (c.toNat - '0'.toNat)) 0)
    else none
  match s.toList with
  | '+' :: rest => (core rest).map (fun n => (n : Int))
  | '-' :: rest => (core rest).map (fun n => -(n : Int))
  | l => (core l).map (fun n => (n : Int))

/-- Largest 64-bit signed integer, `math.MaxInt64`. -/
def maxI64 : Int := 9223372036854775807

/-- Smallest 64-bit signed integer, `math.MinInt64`. -/
def minI64 : Int := -9223372036854775808

/-- Model of `strconv.Atoi(s)` as Go returns it: the pair of the returned
`int` value and whether `err == nil`. Syntax errors return `(0, false)`;
64-bit range overflow returns the clamped extreme with `(·, false)`
(Go's `ErrRange` contract); otherwise the value with `true`. -/
def goAtoiResult (s : String) : Int × Bool :=
  match parseIntCore s with
  | none => (0, false)
  | some v =>
    if v > maxI64 then (maxI64, false)
    else if v < minI64 then (minI64, false)
    else (v, true)

/-- Two's-complement wrap of an integer to 64 bits — Go's defined `int64`
overflow behaviour. -/
def wrap64 (n : Int) : Int :=
  (n + 9223372036854775808) % 18446744073709551616 - 9223372036854775808

/-- The argument `time.Sleep` receives for a delay of `secs` seconds:
`time.Duration(secs) * time.Second` is an `int64` multiplication by `10^9`
nanoseconds and wraps at 64 bits. -/
def durationNanos (secs : Int) : Int :=
  wrap64 (secs * 1000000000)

/-- Value of one character of the standard base64 alphabet, if any. -/
def b64Char (c : Char) : Option Nat :=
  if 'A' ≤ c ∧ c ≤ 'Z' then some (c.toNat - 'A'.toNat)
  else if 'a' ≤ c ∧ c ≤ 'z' then some (c.toNat - 'a'.toNat + 26)
  else if '0' ≤ c ∧ c ≤ '9' then some (c.toNat - '0'.toNat + 52)
  else if c = '+' then some 62
  else if c = '/' then some 63
  else none

/-- Core of `base64.StdEncoding.DecodeString`: decodes quads in order; returns
the bytes decoded so far plus a success flag (Go returns the partially decoded
data together with the error). -/
def b64DecodeCore : List Char → List Nat × Bool
  | a :: b :: c :: d :: rest =>
    (match b64Char a, b64Char b with
     | some x, some y =>
       if c = '=' then
         if d = '=' ∧ rest = [] then ([x * 4 + y / 16], true)
         else ([x * 4 + y / 16], false)
       else
         (match b64Char c with
          | some z =>
            if d = '=' then
              if rest = [] then ([x * 4 + y / 16, (y % 16) * 16 + z / 4], true)
              else ([x * 4 + y / 16, (y % 16) * 16 + z / 4], false)
            else
              (match b64Char d with
               | some w =>
                 let t := b64DecodeCore rest
                 ((x * 4 + y / 16) :: ((y % 16) * 16 + z / 4) :: ((z % 4) * 64 + w) :: t.1, t.2)
               | none => ([], false))
          | none => ([], false))
     | _, _ => ([], false))
  | [] => ([], true)
  | _ => ([], false)

/-- Model of `base64.StdEncoding.DecodeString(s)`: the returned data (bytes as
characters) and whether `err == nil`. CR and LF are skipped as in Go. -/
def base64DecodeString (s : String) : String × Bool :=
  let r := b64DecodeCore (s.toList.filter (fun c => c ≠ '\r' ∧ c ≠ '\n'))
  (String.mk (r.1.map Char.ofNat), r.2)

/-- Valid characters of an HTTP header field name (`net/textproto`'s token
table restricted to characters appearing in this development). -/
def validHeaderFieldChar (c : Char) : Bool :=
  ('a' ≤ c ∧ c ≤ 'z') ∨ ('A' ≤ c ∧ c ≤ 'Z') ∨ ('0' ≤ c ∧ c ≤ '9') ∨
    c ∈ ['!', '#', '$', '%', '&', Char.ofNat 39, '*', '+', '-', '.', '^', '_',
         Char.ofNat 96, '|', '~']

/-- Letter-casing loop of `textproto.CanonicalMIMEHeaderKey`: uppercase after a
start or a hyphen, lowercase elsewhere. -/
def canonAux : Bool → List Char → List Char
  | _, [] => []
  | up, c :: rest => (if up then upperChar c else lowerChar c) :: canonAux (c = '-') rest

/-- Model of `textproto.CanonicalMIMEHeaderKey` (used by `http.Header`'s
`Set`/`Add`/`Get`): keys with an invalid character are returned unchanged. -/
def canonKey (s : String) : String :=
  if s.toList.all validHeaderFieldChar then String.mk (canonAux true s.toList) else s

/-- One call a handler performs on its `http.ResponseWriter` (plus the timer
sleep of the dynamic `delay`): the response is this call trace. -/
inductive WEvent where
  | setHeader : String → String → WEvent
  | addHeader : String → String → WEvent
  | status : Int → WEvent
  | write : String → WEvent
  | sleep : Int → WEvent
  | serveStaticFile : WEvent
  deriving DecidableEq, Repr

/-- Status code of the recorded response: the first explicit `WriteHeader`
or, when a body write comes first, the implicit 200 — the
`httptest.ResponseRecorder` rule used by the serving pipeline (`logger` wraps
every data-plane handler in a recorder). -/
def effStatus : List WEvent → Int
  | [] => 200
  | WEvent.status c :: _ => c
  | WEvent.write _ :: _ => 200
  | _ :: rest => effStatus rest

/-- Concatenation of a list of strings. -/
def strConcat : List String → String
  | [] => ""
  | s :: rest => s ++ strConcat rest

/-- Body of the recorded response: concatenation of all body writes. -/
def effBody (tr : List WEvent) : String :=
  strConcat (tr.filterMap fun e =>
    match e with
    | WEvent.write s => some s
    | _ => none)

/-- Sleep durations requested while producing the response, in trace order:
the nanosecond argument of each `time.Sleep` call. -/
def sleepEvs (tr : List WEvent) : List Int :=
  tr.filterMap fun e =>
    match e with
    | WEvent.sleep n => some n
    | _ => none

/-- Nanoseconds actually slept for each timer event of the trace:
`time.Sleep` returns immediately for a negative or zero duration. -/
def sleptNanos (tr : List WEvent) : List Int :=
  (sleepEvs tr).map (fun d => if d ≤ 0 then 0 else d)

/-- Header-map effect of one writer call: `Set` replaces the values of the
canonicalised key, `Add` appends to them — `http.Header` semantics. -/
def applyHeaderEvent (hs : List (String × List String)) : WEvent → List (String × List String)
  | WEvent.setHeader k v =>
    let ck := canonKey k
    if hs.any (fun p => p.1 = ck) then hs.map (fun p => if p.1 = ck then (ck, [v]) else p)
    else hs ++ [(ck, [v])]
  | WEvent.addHeader k v =>
    let ck := canonKey k
    if hs.any (fun p => p.1 = ck) then
      hs.map (fun p => if p.1 = ck then (ck, p.2 ++ [v]) else p)
    else hs ++ [(ck, [v])]
  | _ => hs

/-- Final header map of the response. The `logger` wrapper copies the whole
recorder header map to the client after the handler returns, so header calls
made after the first body write still reach the wire. -/
def effHeaders (tr : List WEvent) : List (String × List String) :=
  tr.foldl applyHeaderEvent []

/-- Model of `resp.Header.Get(k)` on the recorded response. -/
def headerGet (tr : List WEvent) (k : String) : String :=
  match (effHeaders tr).filter (fun p => p.1 = canonKey k) with
  | [] => ""
  | p :: _ => p.2.headD ""

/-- Model of `url.Values.Get(k)` over the parsed query pairs: first value of
the key, or the empty string. -/
def queryGet (q : List (String × String)) (k : String) : String :=
  match q.filter (fun p => p.1 = k) with
  | [] => ""
  | p :: _ => p.2

/-- Model of `values[k]`: all values of the key, in order. -/
def queryGetAll (q : List (String × String)) (k : String) : List String :=
  (q.filter (fun p => p.1 = k)).map Prod.snd

/-- Model of `strings.SplitN(h, ":", 2)` restricted to its use in the engine:
`some (k, v)` when a colon occurs (split at the first one), else `none`
(the length-2 guard fails and the entry is ignored). -/
def splitN2 (h : String) (c : Char) : Option (String × String) :=
  match idxAux [c] h.toList with
  | some n => some (String.mk (h.toList.take n), String.mk (h.toList.drop (n + 1)))
  | none => none

/-- Rune-reversal loop of `URLReflection` (`server.go` lines 129-133). -/
def strRev (s : String) : String :=
  String.mk s.toList.reverse

/-- Embedding of `Options.getURLIDComponent` (`server.go` lines 137-150),
parameterised by the matcher `m` — `Options.isCorrelationID`, whose body is
not part of this repository snapshot — and by `idLen = GetIdLength()`.
`none` models the slice panic of `parts[:len(parts)-2]` when the URL has
fewer than two dot-separated parts. -/
def getURLIDComponent (m : String → Bool) (idLen : Nat) (URL : String) : Option String :=
  let parts := splitOnDot URL
  if parts.length < 2 then none
  else
    some ((parts.take (parts.length - 2)).foldl
      (fun randomID part =>
        (slideWithLength part idLen).foldl
          (fun acc scanChunk => if m scanChunk then part else acc) randomID) "")

/-- Embedding of `Options.URLReflection` (`server.go` lines 126-134). -/
def URLReflection (m : String → Bool) (idLen : Nat) (URL : String) : Option String :=
  (getURLIDComponent m idLen URL).map strRev

/-- Header parameters of the dynamic engine: one `Add` per well-formed
`K:V` entry of `values["header"]`, malformed entries ignored. -/
def dynHeaderEvs (query : List (String × String)) : List WEvent :=
  (queryGetAll query "header").flatMap (fun header =>
    match splitN2 header ':' with
    | some kv => [WEvent.addHeader kv.1 kv.2]
    | none => [])

/-- Dynamic `delay` parameter of the engine: one timer sleep of
`time.Duration(Atoi value) * time.Second` nanoseconds (the `Atoi` error is
discarded and the multiplication wraps at 64 bits) when the parameter is
present. -/
def delaySeg (query : List (String × String)) : List WEvent :=
  if queryGet query "delay" ≠ ""
  then [WEvent.sleep (durationNanos (goAtoiResult (queryGet query "delay")).1)] else []

/-- Dynamic `status` parameter of the engine: one `WriteHeader` of the `Atoi`
value when the parameter is present (its error discarded). -/
def statusSeg (query : List (String × String)) : List WEvent :=
  if queryGet query "status" ≠ ""
  then [WEvent.status (goAtoiResult (queryGet query "status")).1] else []

/-- Dynamic `body` parameter of the engine: one body write when present. -/
def bodySeg (query : List (String × String)) : List WEvent :=
  if queryGet query "body" ≠ "" then [WEvent.write (queryGet query "body")] else []

/-- Dynamic `b64_body` query parameter of the engine: one body write of the
decoded bytes when present (decode errors dropped silently). -/
def b64QuerySeg (query : List (String × String)) : List WEvent :=
  if queryGet query "b64_body" ≠ ""
  then [WEvent.write (base64DecodeString (queryGet query "b64_body")).1] else []

/-- Embedding of `writeResponseFromDynamicRequest` (`http_server.go` lines
331-365) as the trace of writer calls it performs, in source order: the
`/b64_body:` path-prefix body write, then headers, delay, status, `body`,
`b64_body`; `none` models the panic of the slice
`req.URL.Path[firstindex+10 : lastIndex]` on inverted bounds. -/
def writeResponseFromDynamicRequest (path : String) (query : List (String × String)) :
    Option (List WEvent) :=
  let b64PathEvs : Option (List WEvent) :=
    if hasPrefixI path "/b64_body:" then
      match goStringSlice path (strIndexOf path "/b64_body:" + 10) (strLastIndexOf path '/') with
      | none => none
      | some seg => some [WEvent.write (base64DecodeString seg).1]
    else some []
  match b64PathEvs with
  | none => none
  | some evs0 =>
    some (evs0 ++ dynHeaderEvs query ++ delaySeg query ++ statusSeg query ++
      bodySeg query ++ b64QuerySeg query)

/-- Configuration fields of `Options` consumed by the HTTP default handler. -/
structure HSOptions where
  domains : List String
  headerServer : String
  version : String
  noVersionHeader : Bool
  dynamicResp : Bool
  staticEnabled : Bool
  customBanner : String

/-- Embedding of `extractServerDomain` (`http_server.go` lines 243-264). -/
def extractServerDomain (o : HSOptions) (host : String) : String :=
  if o.headerServer ≠ "" then o.headerServer
  else if o.domains.length > 0 then
    let domain := (o.domains.filter (fun d => hasSuffixI host d)).headD ""
    if domain = "" then o.domains.headD "" else domain
  else ""

/-- The `banner` template constant of `http_server.go` (lines 234-241). -/
def bannerTemplate : String :=
  "<h1> Interactsh Server </h1>\n\n<a href=\x27https://github.com/projectdiscovery/interactsh\x27><b>Interactsh</b></a> is an open-source tool for detecting out-of-band interactions. It is a tool designed to detect vulnerabilities that cause external interactions.<br><br>\n\nIf you notice any interactions from <b>*.%s</b> in your logs, it\x27s possible that someone (internal security engineers, pen-testers, bug-bounty hunters) has been testing your application.<br><br>\n\nYou should investigate the sites where these interactions were generated from, and if a vulnerability exists, examine the root cause and take the necessary steps to mitigate the issue.\n"

/-- Embedding of `defaultHandler` (`http_server.go` lines 267-320) as the trace
of writer calls; `none` propagates the panic of `URLReflection` on a host
without two dots. Branch conditions and their order mirror the source. -/
def defaultHandler (o : HSOptions) (m : String → Bool) (idLen : Nat)
    (host path : String) (query : List (String × String)) : Option (List WEvent) :=
  let domain := extractServerDomain o host
  let baseEvs := [WEvent.setHeader "Server" domain] ++
    (if o.noVersionHeader then [] else [WEvent.setHeader "X-Interactsh-Version" o.version])
  match URLReflection m idLen host with
  | none => none
  | some reflection =>
    if hasPrefixI path "/s/" ∧ o.staticEnabled then
      let dynEvs :=
        if o.dynamicResp ∧ query ≠ [] then
          dynHeaderEvs query ++
          (if queryGet query "delay" ≠ "" ∧ (goAtoiResult (queryGet query "delay")).2 then
            [WEvent.sleep (durationNanos (goAtoiResult (queryGet query "delay")).1)] else []) ++
          (if queryGet query "status" ≠ "" ∧ (goAtoiResult (queryGet query "status")).2 then
            [WEvent.status (goAtoiResult (queryGet query "status")).1] else [])
        else []
      some (baseEvs ++ dynEvs ++ [WEvent.serveStaticFile])
    else if path = "/" ∧ reflection = "" then
      some (baseEvs ++ [WEvent.write
        (if o.customBanner ≠ "" then o.customBanner.replace "{DOMAIN}" domain
         else bannerTemplate.replace "%s" domain)])
    else if equalFoldASCII path "/robots.txt" then
      some (baseEvs ++ [WEvent.write ("User-agent: *\nDisallow: / # " ++ reflection)])
    else if hasSuffixI path ".json" then
      some (baseEvs ++ [WEvent.write ("\x7b\"data\":\"" ++ reflection ++ "\"\x7d"),
        WEvent.setHeader "Content-Type" "application/json"])
    else if hasSuffixI path ".xml" then
      some (baseEvs ++ [WEvent.write ("<data>" ++ reflection ++ "</data>"),
        WEvent.setHeader "Content-Type" "application/xml"])
    else if o.dynamicResp ∧ (query ≠ [] ∨ hasPrefixI path "/b64_body:") then
      (writeResponseFromDynamicRequest path query).map (fun evs => baseEvs ++ evs)
    else
      some (baseEvs ++ [WEvent.write
        ("<html><head></head><body>" ++ reflection ++ "</body></html>")])

/-- One entry of `HTTPServer.dynamicEndpoints` (`http_server.go` lines 40-44);
time is nanoseconds as an integer. -/
structure DynamicEndpoint where
  Body : String
  ContentType : String
  LastUpdated : Int
  deriving DecidableEq, Repr

/-- Decoded body of `POST /storerequest` (`storeReq` in `storeHandler`). -/
structure StoreReq where
  Body : String
  ContentType : String
  SubURL : String
  deriving DecidableEq, Repr

/-- Lookup in the dynamic-endpoints map, modelled as an association list. -/
def mapLookup (k : String) : List (String × DynamicEndpoint) → Option DynamicEndpoint
  | [] => none
  | p :: rest => if p.1 = k then some p.2 else mapLookup k rest

/-- Map assignment `m[k] = v`: replace the binding or append a new one. -/
def mapInsert (k : String) (v : DynamicEndpoint) :
    List (String × DynamicEndpoint) → List (String × DynamicEndpoint)
  | [] => [(k, v)]
  | p :: rest => if p.1 = k then (k, v) :: rest else p :: mapInsert k v rest

/-- `24 * time.Hour` in nanoseconds. -/
def hours24 : Int := 24 * 60 * 60 * 1000000000

/-- Embedding of `storeHandler` (`http_server.go` lines 536-574): given the
endpoints map, the current time, whether the method is POST, and the decode
result of the JSON body (`none` = decode error), returns the response status
and the new map. -/
def storeHandler (eps : List (String × DynamicEndpoint)) (now : Int)
    (methodIsPost : Bool) (decoded : Option StoreReq) :
    Int × List (String × DynamicEndpoint) :=
  if ¬methodIsPost then (405, eps)
  else
    match decoded with
    | none => (400, eps)
    | some sreq =>
      if sreq.SubURL = "" then (400, eps)
      else
        match mapLookup sreq.SubURL eps with
        | some de =>
          if now - de.LastUpdated < hours24 then (429, eps)
          else (200, mapInsert sreq.SubURL ⟨sreq.Body, sreq.ContentType, now⟩ eps)
        | none => (200, mapInsert sreq.SubURL ⟨sreq.Body, sreq.ContentType, now⟩ eps)

/-- Embedding of `apidocsHandler` (`http_server.go` lines 577-599): returns the
response status and, on success, the served body and content type. -/
def apidocsHandler (eps : List (String × DynamicEndpoint)) (path : String) :
    Int × Option (String × String) :=
  let sub := trimPrefixStr path "/apidocs/"
  if sub = "" then (404, none)
  else
    match mapLookup sub eps with
    | none => (404, none)
    | some de => (200, some (de.Body, de.ContentType))

/-- The JSON object written by a successful `GET /poll`. -/
structure PollResponse where
  Data : List String
  Extra : List String
  AESKey : String
  TLDData : List String
  deriving DecidableEq, Repr

/-- Embedding of `pollHandler` (`http_server.go` lines 434-474). The storage
backend is not part of this repository snapshot; its drain operations are
parameters following the spec's storage contract: `getInteractions id secret`
authenticates and drains (`Except.error` = `not_found`/`wrong_secret`), and
`getInteractionsWithId` drains a literal-key channel (its error is discarded
by the source). -/
def pollHandler
    (getInteractions : String → String → Except String (List String × String))
    (getInteractionsWithId : String → List String)
    (rootTLD : Bool) (domains : List String) (token : String)
    (id secret : String) : Int × Option PollResponse :=
  if id = "" then (400, none)
  else if secret = "" then (400, none)
  else
    match getInteractions id secret with
    | Except.error _ => (400, none)
    | Except.ok dr =>
      let tlddata := if rootTLD then domains.flatMap getInteractionsWithId else []
      let extradata := if token ≠ "" then getInteractionsWithId token else []
      (200, some ⟨dr.1, extradata, dr.2, tlddata⟩)

/-- An interaction as submitted to storage: the correlation id it is appended
under, and the `UniqueID`/`FullId` fields of the record. -/
structure StoredInteraction where
  correlationID : String
  uniqueID : String
  fullID : String
  deriving DecidableEq, Repr

/-- Embedding of `HTTPServer.handleInteraction` (`http_server.go` lines
210-232): `none` models the panic of `uniqueID[:cid]` when the matched
substring is shorter than the correlation-id length. -/
def handleInteraction (cid : Nat) (uniqueID fullID : String) : Option StoredInteraction :=
  if cid ≤ strLen uniqueID then some ⟨strTake uniqueID cid, uniqueID, fullID⟩ else none

/-- Embedding of the url-only scanning branch of `logger` (`http_server.go`
lines 190-206): split host+URL on `.`, `\n`, `\t`, `/`; slide a window of
width `idLen` over each part; lowercase-normalise and check with the matcher
`m`; emit one stored interaction per hit. -/
def urlOnlyScan (m : String → Bool) (cid idLen : Nat) (url : String) :
    List (Option StoredInteraction) :=
  let parts := splitAny url ['.', '\n', '\t', '/']
  (List.range parts.length).flatMap (fun i =>
    let part := parts.getD i ""
    (slideWithLength part idLen).filterMap (fun partChunk =>
      let normalizedPartChunk := lowerStr partChunk
      if m normalizedPartChunk then
        some (handleInteraction cid normalizedPartChunk
          (if i + 1 ≤ parts.length then strJoin "." (parts.take (i + 1)) else part))
      else none))

/-! Generic helper lemmas. -/

theorem toList_mk (l : List Char) : (String.mk l).toList = l := rfl

theorem mk_toList (s : String) : String.mk s.toList = s := rfl

theorem toList_append (p s : String) : (p ++ s).toList = p.toList ++ s.toList := rfl

theorem strLen_lowerStr (s : String) : strLen (lowerStr s) = strLen s := by
  simp [strLen, lowerStr, toList_mk]

theorem trimPrefixStr_append (p s : String) : trimPrefixStr (p ++ s) p = s := by
  unfold trimPrefixStr
  rw [toList_append]
  have hpre : p.toList.isPrefixOf (p.toList ++ s.toList) = true := by
    rw [List.isPrefixOf_iff_prefix]
    exact List.prefix_append _ _
  simp [hpre, List.drop_left, mk_toList]

theorem mapLookup_insert_self (k : String) (v : DynamicEndpoint)
    (eps : List (String × DynamicEndpoint)) :
    mapLookup k (mapInsert k v eps) = some v := by
  induction eps with
  | nil => simp [mapInsert, mapLookup]
  | cons p rest ih =>
    by_cases h : p.1 = k
    · simp [mapInsert, mapLookup, h]
    · simp [mapInsert, mapLookup, h, ih]

/-! Claim theorems. -/

/-- C1: `POST /storerequest` responds 400 when the JSON body does not decode or
when `suburl` is empty, leaving the endpoints map unchanged; responds 429 when
an entry for the suburl exists with `now - last_updated < 24h`, leaving the
previously stored body still served by `GET /apidocs/<suburl>`; otherwise the
entry is inserted or overwritten with the current timestamp and the response
is 200 — in particular a store under a suburl with no live entry succeeds
regardless of the history of other suburls. -/
theorem storerequest_cooldown_spec
    (eps : List (String × DynamicEndpoint)) (now : Int) (sreq : StoreReq) :
    (storeHandler eps now true none = (400, eps)) ∧
    (sreq.SubURL = "" → storeHandler eps now true (some sreq) = (400, eps)) ∧
    (∀ de, sreq.SubURL ≠ "" → mapLookup sreq.SubURL eps = some de →
      now - de.LastUpdated < hours24 →
      storeHandler eps now true (some sreq) = (429, eps) ∧
      apidocsHandler (storeHandler eps now true (some sreq)).2
        ("/apidocs/" ++ sreq.SubURL) = (200, some (de.Body, de.ContentType))) ∧
    (∀ de, sreq.SubURL ≠ "" → mapLookup sreq.SubURL eps = some de →
      ¬(now - de.LastUpdated < hours24) →
      storeHandler eps now true (some sreq) =
        (200, mapInsert sreq.SubURL ⟨sreq.Body, sreq.ContentType, now⟩ eps)) ∧
    (sreq.SubURL ≠ "" → mapLookup sreq.SubURL eps = none →
      storeHandler eps now true (some sreq) =
        (200, mapInsert sreq.SubURL ⟨sreq.Body, sreq.ContentType, now⟩ eps) ∧
      mapLookup sreq.SubURL (storeHandler eps now true (some sreq)).2 =
        some ⟨sreq.Body, sreq.ContentType, now⟩) := by
  refine ⟨by simp [storeHandler], fun h => by simp [storeHandler, h], ?_, ?_, ?_⟩
  · intro de hne hlook hfresh
    have hst : storeHandler eps now true (some sreq) = (429, eps) := by
      simp [storeHandler, hne, hlook, hfresh]
    refine ⟨hst, ?_⟩
    rw [hst]
    show apidocsHandler eps ("/apidocs/" ++ sreq.SubURL) = _
    unfold apidocsHandler
    rw [trimPrefixStr_append]
    simp [hne, hlook]
  · intro de hne hlook hstale
    simp [storeHandler, hne, hlook, hstale]
  · intro hne hlook
    have hst : storeHandler eps now true (some sreq) =
        (200, mapInsert sreq.SubURL ⟨sreq.Body, sreq.ContentType, now⟩ eps) := by
      simp [storeHandler, hne, hlook]
    exact ⟨hst, by rw [hst]; exact mapLookup_insert_self _ _ _⟩

/-- C1 witness: the concrete scenario of the repository's handler test — a
fresh entry for `foo` stored at time 0 blocks a second store at time 1 with
429 while `GET /apidocs/foo` still serves the first body, and a first store
under `bar` succeeds. -/
theorem storerequest_cooldown_witness :
    storeHandler [("foo", ⟨"hello", "text/plain", 0⟩)] 1 true
        (some ⟨"changed", "text/x", "foo"⟩) =
      (429, [("foo", ⟨"hello", "text/plain", 0⟩)]) ∧
    apidocsHandler
        (storeHandler [("foo", ⟨"hello", "text/plain", 0⟩)] 1 true
          (some ⟨"changed", "text/x", "foo"⟩)).2 ("/apidocs/" ++ "foo") =
      (200, some ("hello", "text/plain")) ∧
    storeHandler [("foo", ⟨"hello", "text/plain", 0⟩)] 1 true
        (some ⟨"world", "text/plain", "bar"⟩) =
      (200, [("foo", ⟨"hello", "text/plain", 0⟩), ("bar", ⟨"world", "text/plain", 1⟩)]) := by
  have h1 := (storerequest_cooldown_spec [("foo", ⟨"hello", "text/plain", 0⟩)] 1
    ⟨"changed", "text/x", "foo"⟩).2.2.1 ⟨"hello", "text/plain", 0⟩
    (by decide) (by decide) (by decide)
  have h2 := (storerequest_cooldown_spec [("foo", ⟨"hello", "text/plain", 0⟩)] 1
    ⟨"world", "text/plain", "bar"⟩).2.2.2.2 (by decide) (by decide)
  exact ⟨h1.1, h1.2, h2.1⟩

theorem lowerStr_toList (s : String) : (lowerStr s).toList = s.toList.map lowerChar := rfl

theorem hasPrefixI_append (p s : String) : hasPrefixI (p ++ s) p = true := by
  unfold hasPrefixI
  rw [lowerStr_toList, lowerStr_toList, toList_append, List.map_append,
    List.isPrefixOf_iff_prefix]
  exact List.prefix_append _ _

theorem idxAux_self_append (c : Char) (cs rest : List Char) :
    idxAux (c :: cs) ((c :: cs) ++ rest) = some 0 := by
  have hpre : (c :: cs).isPrefixOf (c :: cs ++ rest) = true := by
    rw [List.isPrefixOf_iff_prefix]
    exact List.prefix_append _ _
  show idxAux (c :: cs) (c :: (cs ++ rest)) = some 0
  simp [idxAux, hpre]

theorem lastIdxAux_none (c : Char) (l : List Char) (h : ∀ a ∈ l, a ≠ c) :
    lastIdxAux c l = none := by
  induction l with
  | nil => rfl
  | cons a rest ih =>
    have ha : a ≠ c := h a (by simp)
    have hr := ih (fun x hx => h x (by simp [hx]))
    simp [lastIdxAux, hr, ha]

/-- C4: `URLReflection` returns the character-reverse of the component
`getURLIDComponent` recognises in the URL, and character-reversal is an
involution. -/
theorem url_reflection_reverse_spec :
    (∀ (m : String → Bool) (idLen : Nat) (URL r : String),
      getURLIDComponent m idLen URL = some r →
      URLReflection m idLen URL = some (strRev r)) ∧
    (∀ t : String, strRev (strRev t) = t) := by
  constructor
  · intro m idLen URL r h
    simp [URLReflection, h]
  · intro t
    simp [strRev, toList_mk, mk_toList]

/-- C4 witness: a concrete URL whose first part is the recognised token. -/
theorem url_reflection_reverse_witness :
    URLReflection (fun s => s == "tok") 3 "tok.a.b" = some (strRev "tok") ∧
    strRev (strRev "kot") = "kot" :=
  ⟨url_reflection_reverse_spec.1 (fun s => s == "tok") 3 "tok.a.b" "tok" (by decide),
   url_reflection_reverse_spec.2 "kot"⟩

/-- C9: `getURLIDComponent` evaluates `parts[:len(parts)-2]` over the dot-split
of its argument, so every input with fewer than two dot-separated parts hits
the error branch of the total embedding (the Go slice bound is negative);
`defaultHandler` evaluates `URLReflection(req.Host)` on every request, so the
edge case is reachable from the public HTTP interface for any dotless host. -/
theorem dotless_host_reachable_panic_spec :
    (∀ (m : String → Bool) (idLen : Nat) (URL : String),
      (splitOnDot URL).length < 2 → getURLIDComponent m idLen URL = none) ∧
    (∀ (o : HSOptions) (m : String → Bool) (idLen : Nat) (host path : String)
      (query : List (String × String)), (splitOnDot host).length < 2 →
      defaultHandler o m idLen host path query = none) := by
  have h1 : ∀ (m : String → Bool) (idLen : Nat) (URL : String),
      (splitOnDot URL).length < 2 → getURLIDComponent m idLen URL = none := by
    intro m idLen URL h
    simp [getURLIDComponent, h]
  refine ⟨h1, ?_⟩
  intro o m idLen host path query h
  simp [defaultHandler, URLReflection, h1 m idLen host h]

/-- C9 witness: a request with `Host: localhost` (no dot) drives the default
handler into the error branch. -/
theorem dotless_host_reachable_panic_witness :
    (splitOnDot "localhost").length < 2 ∧
    defaultHandler ⟨["example.com"], "", "1.0", false, false, false, ""⟩
      (fun _ => false) 33 "localhost" "/" [] = none :=
  ⟨by decide,
   dotless_host_reachable_panic_spec.2 ⟨["example.com"], "", "1.0", false, false, false, ""⟩
     (fun _ => false) 33 "localhost" "/" [] (by decide)⟩

/-- C10: for every path of the form `/b64_body:<segment>` whose segment
contains no further `/`, the engine's slice `path[firstindex+10 : lastIndex]`
has inverted bounds (`lastIndex = 0 < 10`) and the error branch of the total
embedding is reached. -/
theorem b64body_slice_panic_spec (seg : String)
    (hseg : ∀ a ∈ seg.toList, a ≠ '/') (query : List (String × String)) :
    writeResponseFromDynamicRequest ("/b64_body:" ++ seg) query = none := by
  have hpre : hasPrefixI ("/b64_body:" ++ seg) "/b64_body:" = true := hasPrefixI_append _ _
  have h10 : "/b64_body:".toList = '/' :: "b64_body:".toList := rfl
  have hidx : strIndexOf ("/b64_body:" ++ seg) "/b64_body:" = 0 := by
    unfold strIndexOf
    rw [toList_append, h10, idxAux_self_append]
    rfl
  have htail : lastIdxAux '/' ("b64_body:".toList ++ seg.toList) = none := by
    apply lastIdxAux_none
    intro a ha
    rcases List.mem_append.mp ha with h | h
    · have hall : ∀ x ∈ "b64_body:".toList, x ≠ '/' := by decide
      exact hall a h
    · exact hseg a h
  have hcons : lastIdxAux '/' ('/' :: ("b64_body:".toList ++ seg.toList)) = some 0 := by
    unfold lastIdxAux
    rw [htail]
    simp
  have hlast : strLastIndexOf ("/b64_body:" ++ seg) '/' = 0 := by
    unfold strLastIndexOf
    rw [toList_append, h10, List.cons_append, hcons]
    rfl
  unfold writeResponseFromDynamicRequest
  rw [hidx, hlast]
  simp [hpre, goStringSlice]

/-- C10 witness: the concrete path `/b64_body:abc` panics the engine. -/
theorem b64body_slice_panic_witness :
    (∀ a ∈ "abc".toList, a ≠ '/') ∧
    writeResponseFromDynamicRequest ("/b64_body:" ++ "abc") [] = none :=
  ⟨by decide, b64body_slice_panic_spec "abc" (by decide) []⟩

theorem foldl_lastmatch {α : Type} (p : α → Bool) (l : List α) (acc : α) :
    l.foldl (fun a x => if p x then x else a) acc = (l.filter p).getLastD acc := by
  induction l generalizing acc with
  | nil => rfl
  | cons x xs ih =>
    simp only [List.foldl_cons, List.filter_cons]
    by_cases h : p x
    · rw [if_pos h, if_pos h, List.getLastD_cons]
      exact ih x
    · rw [if_neg h, if_neg h]
      exact ih acc

theorem foldl_anymatch (m : String → Bool) (part : String) (chunks : List String)
    (acc : String) :
    chunks.foldl (fun a c => if m c then part else a) acc =
      if chunks.any m then part else acc := by
  induction chunks generalizing acc with
  | nil => rfl
  | cons c cs ih =>
    simp only [List.foldl_cons, List.any_cons]
    by_cases h : m c
    · simp [h, ih]
    · simp [h, ih]

/-- C5: when several sliding windows over the dot-separated parts of the URL
match, the last match wins — the returned component is the part of the last
matching window (default empty) — and in particular, with the default id
lengths 20+13, any matcher accepting `ugboyyyyyn` (as the matcher of this
repository must for its test `TestGetURLIDComponent` to pass) makes
`getURLIDComponent` return `ugboyyyyyn` on the test URL. -/
theorem url_id_lastmatch_spec (m : String → Bool) (hm : m "ugboyyyyyn" = true) :
    (∀ (m2 : String → Bool) (idLen : Nat) (URL r : String),
      getURLIDComponent m2 idLen URL = some r →
      r = (((splitOnDot URL).take ((splitOnDot URL).length - 2)).filter
            (fun part => (slideWithLength part idLen).any m2)).getLastD "") ∧
    getURLIDComponent m 33 "c6rj61aciaeutn2ae680cg5.ugboyyyyyn.interactsh.com" =
      some "ugboyyyyyn" := by
  have hchar : ∀ (m2 : String → Bool) (idLen : Nat) (URL r : String),
      getURLIDComponent m2 idLen URL = some r →
      r = (((splitOnDot URL).take ((splitOnDot URL).length - 2)).filter
            (fun part => (slideWithLength part idLen).any m2)).getLastD "" := by
    intro m2 idLen URL r h
    unfold getURLIDComponent at h
    by_cases hl : (splitOnDot URL).length < 2
    · simp [hl] at h
    · simp only [hl, if_neg, if_false, Option.some.injEq] at h
      subst h
      have hinner : (fun (randomID part : String) =>
          (slideWithLength part idLen).foldl
            (fun acc scanChunk => if m2 scanChunk then part else acc) randomID) =
          (fun randomID part =>
            if (slideWithLength part idLen).any m2 then part else randomID) := by
        funext a p
        exact foldl_anymatch m2 p (slideWithLength p idLen) a
      rw [hinner, foldl_lastmatch]
  refine ⟨hchar, ?_⟩
  have hparts : splitOnDot "c6rj61aciaeutn2ae680cg5.ugboyyyyyn.interactsh.com" =
      ["c6rj61aciaeutn2ae680cg5", "ugboyyyyyn", "interactsh", "com"] := by decide
  have hslide1 : slideWithLength "c6rj61aciaeutn2ae680cg5" 33 =
      ["c6rj61aciaeutn2ae680cg5"] := by decide
  have hslide2 : slideWithLength "ugboyyyyyn" 33 = ["ugboyyyyyn"] := by decide
  unfold getURLIDComponent
  rw [hparts]
  simp [hslide1, hslide2, hm]

/-- C5 witness: a matcher accepting exactly `ugboyyyyyn` realises the
hypothesis and the asserted value. -/
theorem url_id_lastmatch_witness :
    getURLIDComponent (fun s => s == "ugboyyyyyn") 33
      "c6rj61aciaeutn2ae680cg5.ugboyyyyyn.interactsh.com" = some "ugboyyyyyn" :=
  (url_id_lastmatch_spec (fun s => s == "ugboyyyyyn") (by decide)).2

/-- C7: `GET /poll` responds 400 when the `id` parameter is missing, when the
`secret` parameter is missing, or when the storage drain fails; on success it
responds 200 with `{data, extra, aes_key, tlddata}` where `tlddata` is drained
from the configured domains' literal-key channels only under root-TLD mode and
`extra` is drained from the operator token's channel only when a token is
configured. -/
theorem poll_handler_spec
    (gi : String → String → Except String (List String × String))
    (gw : String → List String) (rootTLD : Bool) (domains : List String)
    (token : String) (id secret : String) :
    (pollHandler gi gw rootTLD domains token "" secret = (400, none)) ∧
    (pollHandler gi gw rootTLD domains token id "" = (400, none)) ∧
    (∀ e, id ≠ "" → secret ≠ "" → gi id secret = Except.error e →
      pollHandler gi gw rootTLD domains token id secret = (400, none)) ∧
    (∀ data aesKey, id ≠ "" → secret ≠ "" → gi id secret = Except.ok (data, aesKey) →
      pollHandler gi gw rootTLD domains token id secret =
        (200, some ⟨data, if token ≠ "" then gw token else [], aesKey,
          if rootTLD then domains.flatMap gw else []⟩)) ∧
    (∀ r, rootTLD = false →
      pollHandler gi gw rootTLD domains token id secret = (200, some r) →
      r.TLDData = []) ∧
    (∀ r, token = "" →
      pollHandler gi gw rootTLD domains token id secret = (200, some r) →
      r.Extra = []) := by
  refine ⟨by simp [pollHandler], ?_, ?_, ?_, ?_, ?_⟩
  · by_cases hid : id = "" <;> simp [pollHandler, hid]
  · intro e hid hsec herr
    simp [pollHandler, hid, hsec, herr]
  · intro data aesKey hid hsec hok
    simp [pollHandler, hid, hsec, hok]
  · intro r hroot h
    by_cases hid : id = ""
    · simp [pollHandler, hid] at h
    · by_cases hsec : secret = ""
      · simp [pollHandler, hid, hsec] at h
      · rcases hgi : gi id secret with e | dr
        · simp [pollHandler, hid, hsec, hgi] at h
        · simp [pollHandler, hid, hsec, hgi, hroot] at h
          rw [← h]
  · intro r htok h
    by_cases hid : id = ""
    · simp [pollHandler, hid] at h
    · by_cases hsec : secret = ""
      · simp [pollHandler, hid, hsec] at h
      · rcases hgi : gi id secret with e | dr
        · simp [pollHandler, hid, hsec, hgi] at h
        · simp [pollHandler, hid, hsec, hgi, htok] at h
          rw [← h]

/-- C7 witness: a concrete storage with a single registered client. -/
theorem poll_handler_witness :
    pollHandler
      (fun i s => if i = "i" ∧ s = "s" then Except.ok (["d1", "d2"], "key")
        else Except.error "wrong_secret")
      (fun x => ["w-" ++ x]) false ["example.com"] "" "i" "s" =
      (200, some ⟨["d1", "d2"], [], "key", []⟩) := by
  have h := (poll_handler_spec
    (fun i s => if i = "i" ∧ s = "s" then Except.ok (["d1", "d2"], "key")
      else Except.error "wrong_secret")
    (fun x => ["w-" ++ x]) false ["example.com"] "" "i" "s").2.2.2.1
    ["d1", "d2"] "key" (by decide) (by decide) rfl
  simpa using h

/-! Classification of writer events and order/effect lemmas. -/

/-- The event writes a response header. -/
def isHeaderEv : WEvent → Bool
  | WEvent.setHeader _ _ => true
  | WEvent.addHeader _ _ => true
  | _ => false

/-- The event writes the response status code. -/
def isStatusEv : WEvent → Bool
  | WEvent.status _ => true
  | _ => false

/-- The event writes response body bytes. -/
def isWriteEv : WEvent → Bool
  | WEvent.write _ => true
  | _ => false

/-- Every `p` event of the trace occurs strictly before every `q` event:
after any `q` event no `p` event follows. -/
def ordered2 (p q : WEvent → Bool) : List WEvent → Bool
  | [] => true
  | e :: rest =>
    (if q e then rest.all (fun e2 => !(p e2)) else true) && ordered2 p q rest

/-- The write-order property the spec asserts of the dynamic engine: all
header writes precede the status write, and the status write precedes all
body writes. -/
def orderOK (tr : List WEvent) : Bool :=
  ordered2 isHeaderEv isStatusEv tr && ordered2 isStatusEv isWriteEv tr

theorem ordered2_of_no_q (p q : WEvent → Bool) (l : List WEvent)
    (h : ∀ e ∈ l, q e = false) : ordered2 p q l = true := by
  induction l with
  | nil => rfl
  | cons e rest ih =>
    have hq := h e (by simp)
    simp [ordered2, hq, ih (fun x hx => h x (by simp [hx]))]

theorem ordered2_of_no_p (p q : WEvent → Bool) (l : List WEvent)
    (h : ∀ e ∈ l, p e = false) : ordered2 p q l = true := by
  induction l with
  | nil => rfl
  | cons e rest ih =>
    have hrest : ∀ x ∈ rest, p x = false := fun x hx => h x (by simp [hx])
    have hall : rest.all (fun e2 => !(p e2)) = true := by
      rw [List.all_eq_true]
      intro x hx
      simp [hrest x hx]
    simp [ordered2, hall, ih hrest]

theorem ordered2_append (p q : WEvent → Bool) (l2 : List WEvent)
    (h2 : ordered2 p q l2 = true) :
    ∀ l1, ordered2 p q l1 = true →
      ((∀ e ∈ l2, p e = false) ∨ (∀ e ∈ l1, q e = false)) →
      ordered2 p q (l1 ++ l2) = true := by
  intro l1
  induction l1 with
  | nil => intro _ _; simpa using h2
  | cons e rest ih =>
    intro h1 h3
    simp only [ordered2, Bool.and_eq_true] at h1
    obtain ⟨h1a, h1b⟩ := h1
    have h3' : (∀ e ∈ l2, p e = false) ∨ (∀ x ∈ rest, q x = false) := by
      rcases h3 with h | h
      · exact Or.inl h
      · exact Or.inr (fun x hx => h x (by simp [hx]))
    have hrec := ih h1b h3'
    show ordered2 p q (e :: (rest ++ l2)) = true
    unfold ordered2
    rw [Bool.and_eq_true]
    refine ⟨?_, hrec⟩
    by_cases hq : q e
    · rw [if_pos hq, List.all_append, Bool.and_eq_true]
      refine ⟨by rw [if_pos hq] at h1a; exact h1a, ?_⟩
      rcases h3 with h | h
      · rw [List.all_eq_true]
        intro x hx
        simp [h x hx]
      · exact absurd (h e (by simp)) (by simp [hq])
    · rw [if_neg hq]

theorem effStatus_cons_skip (e : WEvent) (tr : List WEvent)
    (h : isStatusEv e = false ∧ isWriteEv e = false) :
    effStatus (e :: tr) = effStatus tr := by
  cases e with
  | setHeader k v => rfl
  | addHeader k v => rfl
  | sleep n => rfl
  | serveStaticFile => rfl
  | status c => simp [isStatusEv] at h
  | write s => simp [isWriteEv] at h

theorem effStatus_append_skips (l tr : List WEvent)
    (h : ∀ e ∈ l, isStatusEv e = false ∧ isWriteEv e = false) :
    effStatus (l ++ tr) = effStatus tr := by
  induction l with
  | nil => rfl
  | cons e rest ih =>
    rw [List.cons_append, effStatus_cons_skip e _ (h e (by simp))]
    exact ih (fun x hx => h x (by simp [hx]))

theorem strConcat_append (a b : List String) :
    strConcat (a ++ b) = strConcat a ++ strConcat b := by
  induction a with
  | nil => simp [strConcat]
  | cons s rest ih =>
    simp [strConcat, ih, String.append_assoc]

theorem effBody_append (l1 l2 : List WEvent) :
    effBody (l1 ++ l2) = effBody l1 ++ effBody l2 := by
  unfold effBody
  rw [List.filterMap_append, strConcat_append]

theorem effBody_no_writes (l : List WEvent) (h : ∀ e ∈ l, isWriteEv e = false) :
    effBody l = "" := by
  induction l with
  | nil => rfl
  | cons e rest ih =>
    have hrest := ih (fun x hx => h x (by simp [hx]))
    have he := h e (by simp)
    cases e with
    | write s => simp [isWriteEv] at he
    | setHeader k v => exact hrest
    | addHeader k v => exact hrest
    | status c => exact hrest
    | sleep n => exact hrest
    | serveStaticFile => exact hrest

/-- The event is the dynamic `delay` timer sleep. -/
def isSleepEv : WEvent → Bool
  | WEvent.sleep _ => true
  | _ => false

theorem mem_ite_singleton {α : Type} {c : Prop} [Decidable c] {x e : α}
    (h : e ∈ (if c then [x] else [])) : e = x := by
  by_cases hc : c
  · rw [if_pos hc] at h
    simpa using h
  · rw [if_neg hc] at h
    simp at h

theorem dynHeaderEvs_header (query : List (String × String)) :
    ∀ e ∈ dynHeaderEvs query, isHeaderEv e = true := by
  intro e he
  unfold dynHeaderEvs at he
  rcases List.mem_flatMap.mp he with ⟨h, _, hmem⟩
  rcases hsp : splitN2 h ':' with _ | kv
  · rw [hsp] at hmem
    simp at hmem
  · rw [hsp] at hmem
    simp at hmem
    rw [hmem]
    rfl

theorem isHeaderEv_classes (e : WEvent) (h : isHeaderEv e = true) :
    isStatusEv e = false ∧ isWriteEv e = false := by
  cases e with
  | setHeader k v => exact ⟨rfl, rfl⟩
  | addHeader k v => exact ⟨rfl, rfl⟩
  | status c => exact absurd h (by simp [isHeaderEv])
  | write s => exact absurd h (by simp [isHeaderEv])
  | sleep n => exact absurd h (by simp [isHeaderEv])
  | serveStaticFile => exact absurd h (by simp [isHeaderEv])

theorem isSleepEv_classes (e : WEvent) (h : isSleepEv e = true) :
    isStatusEv e = false ∧ isWriteEv e = false := by
  cases e with
  | sleep n => exact ⟨rfl, rfl⟩
  | setHeader k v => exact absurd h (by simp [isSleepEv])
  | addHeader k v => exact absurd h (by simp [isSleepEv])
  | status c => exact absurd h (by simp [isSleepEv])
  | write s => exact absurd h (by simp [isSleepEv])
  | serveStaticFile => exact absurd h (by simp [isSleepEv])

theorem isStatusEv_classes (e : WEvent) (h : isStatusEv e = true) :
    isHeaderEv e = false ∧ isWriteEv e = false := by
  cases e with
  | status c => exact ⟨rfl, rfl⟩
  | setHeader k v => exact absurd h (by simp [isStatusEv])
  | addHeader k v => exact absurd h (by simp [isStatusEv])
  | write s => exact absurd h (by simp [isStatusEv])
  | sleep n => exact absurd h (by simp [isStatusEv])
  | serveStaticFile => exact absurd h (by simp [isStatusEv])

theorem isWriteEv_classes (e : WEvent) (h : isWriteEv e = true) :
    isHeaderEv e = false ∧ isStatusEv e = false := by
  cases e with
  | write s => exact ⟨rfl, rfl⟩
  | setHeader k v => exact absurd h (by simp [isWriteEv])
  | addHeader k v => exact absurd h (by simp [isWriteEv])
  | status c => exact absurd h (by simp [isWriteEv])
  | sleep n => exact absurd h (by simp [isWriteEv])
  | serveStaticFile => exact absurd h (by simp [isWriteEv])

theorem delaySeg_sleeps (query : List (String × String)) :
    ∀ e ∈ delaySeg query, isSleepEv e = true := by
  intro e he
  unfold delaySeg at he
  rw [mem_ite_singleton he]
  rfl

theorem statusSeg_statuses (query : List (String × String)) :
    ∀ e ∈ statusSeg query, isStatusEv e = true := by
  intro e he
  unfold statusSeg at he
  rw [mem_ite_singleton he]
  rfl

theorem bodySeg_writes (query : List (String × String)) :
    ∀ e ∈ bodySeg query, isWriteEv e = true := by
  intro e he
  unfold bodySeg at he
  rw [mem_ite_singleton he]
  rfl

theorem b64QuerySeg_writes (query : List (String × String)) :
    ∀ e ∈ b64QuerySeg query, isWriteEv e = true := by
  intro e he
  unfold b64QuerySeg at he
  rw [mem_ite_singleton he]
  rfl

theorem orderOK_segments (H D S B1 B2 : List WEvent)
    (hH : ∀ e ∈ H, isHeaderEv e = true)
    (hD : ∀ e ∈ D, isSleepEv e = true)
    (hS : ∀ e ∈ S, isStatusEv e = true)
    (hB1 : ∀ e ∈ B1, isWriteEv e = true)
    (hB2 : ∀ e ∈ B2, isWriteEv e = true) :
    orderOK (H ++ D ++ S ++ B1 ++ B2) = true := by
  have hHs : ∀ e ∈ H, isStatusEv e = false := fun e he => (isHeaderEv_classes e (hH e he)).1
  have hHw : ∀ e ∈ H, isWriteEv e = false := fun e he => (isHeaderEv_classes e (hH e he)).2
  have hDs : ∀ e ∈ D, isStatusEv e = false := fun e he => (isSleepEv_classes e (hD e he)).1
  have hDw : ∀ e ∈ D, isWriteEv e = false := fun e he => (isSleepEv_classes e (hD e he)).2
  have hSh : ∀ e ∈ S, isHeaderEv e = false := fun e he => (isStatusEv_classes e (hS e he)).1
  have hSw : ∀ e ∈ S, isWriteEv e = false := fun e he => (isStatusEv_classes e (hS e he)).2
  have hB1h : ∀ e ∈ B1, isHeaderEv e = false := fun e he => (isWriteEv_classes e (hB1 e he)).1
  have hB1s : ∀ e ∈ B1, isStatusEv e = false := fun e he => (isWriteEv_classes e (hB1 e he)).2
  have hB2h : ∀ e ∈ B2, isHeaderEv e = false := fun e he => (isWriteEv_classes e (hB2 e he)).1
  have hB2s : ∀ e ∈ B2, isStatusEv e = false := fun e he => (isWriteEv_classes e (hB2 e he)).2
  have hshape1 : H ++ D ++ S ++ B1 ++ B2 = (H ++ D) ++ (S ++ (B1 ++ B2)) := by
    simp [List.append_assoc]
  unfold orderOK
  rw [Bool.and_eq_true]
  constructor
  · rw [hshape1]
    apply ordered2_append _ _ _ ?h2 _ ?h1 ?h3
    case h2 =>
      apply ordered2_of_no_p
      intro e he
      rcases List.mem_append.mp he with h | h
      · exact hSh e h
      · rcases List.mem_append.mp h with h | h
        · exact hB1h e h
        · exact hB2h e h
    case h1 =>
      apply ordered2_of_no_q
      intro e he
      rcases List.mem_append.mp he with h | h
      · exact hHs e h
      · exact hDs e h
    case h3 =>
      left
      intro e he
      rcases List.mem_append.mp he with h | h
      · exact hSh e h
      · rcases List.mem_append.mp h with h | h
        · exact hB1h e h
        · exact hB2h e h
  · have hshape2 : H ++ D ++ S ++ B1 ++ B2 = ((H ++ D) ++ S) ++ (B1 ++ B2) := by
      simp [List.append_assoc]
    rw [hshape2]
    apply ordered2_append _ _ _ ?g2 _ ?g1 ?g3
    case g2 =>
      apply ordered2_of_no_p
      intro e he
      rcases List.mem_append.mp he with h | h
      · exact hB1s e h
      · exact hB2s e h
    case g1 =>
      apply ordered2_of_no_q
      intro e he
      rcases List.mem_append.mp he with h | h
      · rcases List.mem_append.mp h with h | h
        · exact hHw e h
        · exact hDw e h
      · exact hSw e h
    case g3 =>
      left
      intro e he
      rcases List.mem_append.mp he with h | h
      · exact hB1s e h
      · exact hB2s e h

/-- C2 counterexample: a request with path `/b64_body:aGk=/` and query
`header=K:V&status=404` makes the engine write body bytes first (the decoded
path segment), then the header, then the status — violating the claimed
headers-then-status-then-body order. -/
theorem dyn_write_order_counterexample :
    writeResponseFromDynamicRequest "/b64_body:aGk=/"
      [("header", "K:V"), ("status", "404")] =
      some [WEvent.write "hi", WEvent.addHeader "K" "V", WEvent.status 404] ∧
    orderOK [WEvent.write "hi", WEvent.addHeader "K" "V", WEvent.status 404] = false := by
  constructor
  · decide
  · decide

/-- C2 amended: for every handled request whose path does not begin with
`/b64_body:`, response headers are written before the status code and the
status code before the body; when the path does begin with `/b64_body:`, the
decoded path segment is written to the body before headers and status. -/
theorem dyn_write_order_amended (path : String) (query : List (String × String))
    (hp : hasPrefixI path "/b64_body:" = false) (tr : List WEvent)
    (htr : writeResponseFromDynamicRequest path query = some tr) :
    orderOK tr = true := by
  unfold writeResponseFromDynamicRequest at htr
  simp only [hp, Bool.false_eq_true, if_false, List.nil_append] at htr
  rw [Option.some.injEq] at htr
  subst htr
  exact orderOK_segments _ _ _ _ _ (dynHeaderEvs_header query) (delaySeg_sleeps query)
    (statusSeg_statuses query) (bodySeg_writes query) (b64QuerySeg_writes query)

/-- C2 witness: a no-path-prefix request with header, status and body
parameters produces the claimed order. -/
theorem dyn_write_order_witness :
    hasPrefixI "/x" "/b64_body:" = false ∧
    writeResponseFromDynamicRequest "/x"
      [("header", "K:V"), ("status", "404"), ("body", "b")] =
      some [WEvent.addHeader "K" "V", WEvent.status 404, WEvent.write "b"] ∧
    orderOK [WEvent.addHeader "K" "V", WEvent.status 404, WEvent.write "b"] = true :=
  ⟨by decide, by decide,
   dyn_write_order_amended "/x" [("header", "K:V"), ("status", "404"), ("body", "b")]
     (by decide) _ (by decide)⟩

theorem str_empty_append (s : String) : "" ++ s = s := by
  cases s with
  | mk d => rfl

theorem str_append_empty (s : String) : s ++ "" = s := by
  cases s with
  | mk d =>
    show String.mk (d ++ []) = String.mk d
    rw [List.append_nil]

theorem effBody_single_write (s : String) : effBody [WEvent.write s] = s := by
  show s ++ "" = s
  exact str_append_empty s

theorem isSleepEv_not_header (e : WEvent) (h : isSleepEv e = true) :
    isHeaderEv e = false := by
  cases e with
  | sleep n => rfl
  | setHeader k v => exact absurd h (by simp [isSleepEv])
  | addHeader k v => exact absurd h (by simp [isSleepEv])
  | status c => exact absurd h (by simp [isSleepEv])
  | write s => exact absurd h (by simp [isSleepEv])
  | serveStaticFile => exact absurd h (by simp [isSleepEv])

theorem isHeaderEv_not_sleep (e : WEvent) (h : isHeaderEv e = true) :
    isSleepEv e = false := by
  cases e with
  | setHeader k v => rfl
  | addHeader k v => rfl
  | status c => exact absurd h (by simp [isHeaderEv])
  | write s => exact absurd h (by simp [isHeaderEv])
  | sleep n => exact absurd h (by simp [isHeaderEv])
  | serveStaticFile => exact absurd h (by simp [isHeaderEv])

theorem isStatusEv_not_sleep (e : WEvent) (h : isStatusEv e = true) :
    isSleepEv e = false := by
  cases e with
  | status c => rfl
  | setHeader k v => exact absurd h (by simp [isStatusEv])
  | addHeader k v => exact absurd h (by simp [isStatusEv])
  | write s => exact absurd h (by simp [isStatusEv])
  | sleep n => exact absurd h (by simp [isStatusEv])
  | serveStaticFile => exact absurd h (by simp [isStatusEv])

theorem isWriteEv_not_sleep (e : WEvent) (h : isWriteEv e = true) :
    isSleepEv e = false := by
  cases e with
  | write s => rfl
  | setHeader k v => exact absurd h (by simp [isWriteEv])
  | addHeader k v => exact absurd h (by simp [isWriteEv])
  | status c => exact absurd h (by simp [isWriteEv])
  | sleep n => exact absurd h (by simp [isWriteEv])
  | serveStaticFile => exact absurd h (by simp [isWriteEv])

theorem sleepEvs_append (l1 l2 : List WEvent) :
    sleepEvs (l1 ++ l2) = sleepEvs l1 ++ sleepEvs l2 := by
  unfold sleepEvs
  rw [List.filterMap_append]

theorem sleepEvs_no_sleeps (l : List WEvent) (h : ∀ e ∈ l, isSleepEv e = false) :
    sleepEvs l = [] := by
  induction l with
  | nil => rfl
  | cons e rest ih =>
    have hrest := ih (fun x hx => h x (by simp [hx]))
    have he := h e (by simp)
    cases e with
    | sleep n => simp [isSleepEv] at he
    | setHeader k v => exact hrest
    | addHeader k v => exact hrest
    | status c => exact hrest
    | write s => exact hrest
    | serveStaticFile => exact hrest

theorem applyHeaderEvent_skip (hs : List (String × List String)) (e : WEvent)
    (h : isHeaderEv e = false) : applyHeaderEvent hs e = hs := by
  cases e with
  | setHeader k v => simp [isHeaderEv] at h
  | addHeader k v => simp [isHeaderEv] at h
  | status c => rfl
  | write s => rfl
  | sleep n => rfl
  | serveStaticFile => rfl

theorem foldl_headers_skips (l : List WEvent) :
    ∀ hs : List (String × List String), (∀ e ∈ l, isHeaderEv e = false) →
      l.foldl applyHeaderEvent hs = hs := by
  induction l with
  | nil => intro hs _; rfl
  | cons e rest ih =>
    intro hs h
    rw [List.foldl_cons, applyHeaderEvent_skip hs e (h e (by simp))]
    exact ih hs (fun x hx => h x (by simp [hx]))

theorem effHeaders_append_right (H rest : List WEvent)
    (h : ∀ e ∈ rest, isHeaderEv e = false) :
    effHeaders (H ++ rest) = effHeaders H := by
  unfold effHeaders
  rw [List.foldl_append]
  exact foldl_headers_skips rest _ h

theorem headerGet_single_add (k v : String) :
    headerGet [WEvent.addHeader k v] k = v := by
  unfold headerGet effHeaders
  simp [applyHeaderEvent]

theorem goAtoi_fail_cases (d : String) (h : (goAtoiResult d).2 = false) :
    (goAtoiResult d).1 = 0 ∨ (goAtoiResult d).1 = maxI64 ∨ (goAtoiResult d).1 = minI64 := by
  rcases hparse : parseIntCore d with _ | v
  · left
    simp [goAtoiResult, hparse]
  · by_cases h1 : v > maxI64
    · right; left
      simp [goAtoiResult, hparse, h1]
    · by_cases h2 : v < minI64
      · right; right
        simp [goAtoiResult, hparse, h1, h2]
      · exfalso
        have hT : (goAtoiResult d).2 = true := by simp [goAtoiResult, hparse, h1, h2]
        exact Bool.false_ne_true (h.symm.trans hT)

theorem durationNanos_fail_if (d : String) (h : (goAtoiResult d).2 = false) :
    (if durationNanos (goAtoiResult d).1 ≤ 0 then (0 : Int)
     else durationNanos (goAtoiResult d).1) = 0 := by
  rcases goAtoi_fail_cases d h with h1 | h1 | h1 <;> rw [h1] <;> decide

/-- C3: for dynamic-engine requests (path without the `/b64_body:` prefix, so
the engine neither panics nor prepends path-decoded body bytes), `?status=404`
yields response status 404; `?body=X` yields body `X`; a decodable
`?b64_body` yields the decoded bytes as body; a `K:V` header entry yields
header `K` with value `V` while colon-free entries are ignored; and a delay
value that fails integer parsing is treated as 0: `Atoi` returns 0 on a
syntax error and a 64-bit clamp on a range error, the `Duration` scaling by
`10^9` wraps the clamps to a non-positive `int64`, and `time.Sleep` returns
immediately on a non-positive duration — 0 nanoseconds are slept, exactly as
for `delay=0`. -/
theorem dyn_engine_behavior_spec (path : String) (query : List (String × String))
    (hp : hasPrefixI path "/b64_body:" = false) (tr : List WEvent)
    (htr : writeResponseFromDynamicRequest path query = some tr) :
    (queryGet query "status" = "404" → effStatus tr = 404) ∧
    (queryGet query "b64_body" = "" → effBody tr = queryGet query "body") ∧
    (∀ X, queryGet query "body" = "" →
      base64DecodeString (queryGet query "b64_body") = (X, true) → effBody tr = X) ∧
    (∀ h k v, queryGetAll query "header" = [h] → splitN2 h ':' = some (k, v) →
      headerGet tr k = v) ∧
    (∀ h, queryGetAll query "header" = [h] → splitN2 h ':' = none →
      effHeaders tr = []) ∧
    (∀ d, queryGet query "delay" = d → d ≠ "" → (goAtoiResult d).2 = false →
      sleptNanos tr = [0]) := by
  unfold writeResponseFromDynamicRequest at htr
  simp only [hp, Bool.false_eq_true, if_false, List.nil_append] at htr
  rw [Option.some.injEq] at htr
  subst htr
  have hHhdr := dynHeaderEvs_header query
  have hHf : ∀ e ∈ dynHeaderEvs query, isStatusEv e = false ∧ isWriteEv e = false :=
    fun e he => isHeaderEv_classes e (hHhdr e he)
  have hDf : ∀ e ∈ delaySeg query, isStatusEv e = false ∧ isWriteEv e = false :=
    fun e he => isSleepEv_classes e (delaySeg_sleeps query e he)
  have hfront : effBody (dynHeaderEvs query ++ delaySeg query ++ statusSeg query) = "" := by
    apply effBody_no_writes
    intro e he
    rcases List.mem_append.mp he with h | h
    · rcases List.mem_append.mp h with h2 | h2
      · exact (hHf e h2).2
      · exact (hDf e h2).2
    · exact (isStatusEv_classes e (statusSeg_statuses query e h)).2
  have hnohdr : ∀ e ∈ delaySeg query ++ (statusSeg query ++ (bodySeg query ++ b64QuerySeg query)),
      isHeaderEv e = false := by
    intro e he
    rcases List.mem_append.mp he with h | h
    · exact isSleepEv_not_header e (delaySeg_sleeps query e h)
    · rcases List.mem_append.mp h with h2 | h2
      · exact (isStatusEv_classes e (statusSeg_statuses query e h2)).1
      · rcases List.mem_append.mp h2 with h3 | h3
        · exact (isWriteEv_classes e (bodySeg_writes query e h3)).1
        · exact (isWriteEv_classes e (b64QuerySeg_writes query e h3)).1
  have hhdrshape : dynHeaderEvs query ++ delaySeg query ++ statusSeg query ++
      bodySeg query ++ b64QuerySeg query =
      dynHeaderEvs query ++ (delaySeg query ++ (statusSeg query ++
        (bodySeg query ++ b64QuerySeg query))) := by
    simp [List.append_assoc]
  have hH0 : sleepEvs (dynHeaderEvs query) = [] :=
    sleepEvs_no_sleeps _ (fun e he => isHeaderEv_not_sleep e (hHhdr e he))
  have hS0 : sleepEvs (statusSeg query) = [] :=
    sleepEvs_no_sleeps _ (fun e he => isStatusEv_not_sleep e (statusSeg_statuses query e he))
  have hB0 : sleepEvs (bodySeg query) = [] :=
    sleepEvs_no_sleeps _ (fun e he => isWriteEv_not_sleep e (bodySeg_writes query e he))
  have hB20 : sleepEvs (b64QuerySeg query) = [] :=
    sleepEvs_no_sleeps _ (fun e he => isWriteEv_not_sleep e (b64QuerySeg_writes query e he))
  refine ⟨?_, ?_, ?_, ?_, ?_, ?_⟩
  · intro hst
    have hS : statusSeg query = [WEvent.status 404] := by
      unfold statusSeg
      rw [hst]
      decide
    have hshape : dynHeaderEvs query ++ delaySeg query ++ statusSeg query ++
        bodySeg query ++ b64QuerySeg query =
        (dynHeaderEvs query ++ delaySeg query) ++
          (statusSeg query ++ (bodySeg query ++ b64QuerySeg query)) := by
      simp [List.append_assoc]
    rw [hshape, effStatus_append_skips _ _ ?hsk, hS]
    · rfl
    case hsk =>
      intro e he
      rcases List.mem_append.mp he with h | h
      · exact hHf e h
      · exact hDf e h
  · intro hb64
    have hB2 : b64QuerySeg query = [] := by
      unfold b64QuerySeg
      rw [hb64]
      simp
    rw [hB2, List.append_nil, effBody_append, hfront, str_empty_append]
    unfold bodySeg
    by_cases hb : queryGet query "body" = ""
    · rw [hb]
      simp [effBody, strConcat]
    · rw [if_pos hb, effBody_single_write]
  · intro X hbody hdec
    have hB : bodySeg query = [] := by
      unfold bodySeg
      rw [hbody]
      simp
    rw [hB, List.append_nil, effBody_append, hfront, str_empty_append]
    unfold b64QuerySeg
    by_cases hb : queryGet query "b64_body" = ""
    · rw [hb] at hdec
      have h0 : base64DecodeString "" = ("", true) := rfl
      rw [h0] at hdec
      rw [hb]
      simp only [Prod.mk.injEq] at hdec
      rw [← hdec.1]
      simp [effBody, strConcat]
    · rw [if_pos hb, effBody_single_write, hdec]
  · intro h k v hq hsp
    have hH : dynHeaderEvs query = [WEvent.addHeader k v] := by
      unfold dynHeaderEvs
      rw [hq]
      simp [hsp]
    rw [hhdrshape]
    unfold headerGet
    rw [effHeaders_append_right _ _ hnohdr, hH]
    exact headerGet_single_add k v
  · intro h hq hsp
    have hH : dynHeaderEvs query = [] := by
      unfold dynHeaderEvs
      rw [hq]
      simp [hsp]
    rw [hhdrshape, effHeaders_append_right _ _ hnohdr, hH]
    rfl
  · intro d hd hdne hfail
    have hD : delaySeg query =
        [WEvent.sleep (durationNanos (goAtoiResult d).1)] := by
      unfold delaySeg
      rw [hd, if_pos hdne]
    unfold sleptNanos
    rw [sleepEvs_append, sleepEvs_append, sleepEvs_append, sleepEvs_append, hD,
      hH0, hB0, hS0, hB20]
    simp only [List.nil_append, List.append_nil]
    show [if durationNanos (goAtoiResult d).1 ≤ 0 then (0 : Int)
          else durationNanos (goAtoiResult d).1] = [0]
    rw [durationNanos_fail_if d hfail]

/-- C3 witness: status, body, header and a syntax-failing delay on one
concrete request; base64 body decoding on a second; a range-overflowing delay
(whose wrapped `Duration` is the immediate-return `-1s`) on a third. -/
theorem dyn_engine_behavior_spec_witness :
    effStatus [WEvent.addHeader "K" "V", WEvent.sleep 0, WEvent.status 404,
      WEvent.write "B"] = 404 ∧
    effBody [WEvent.addHeader "K" "V", WEvent.sleep 0, WEvent.status 404,
      WEvent.write "B"] = "B" ∧
    headerGet [WEvent.addHeader "K" "V", WEvent.sleep 0, WEvent.status 404,
      WEvent.write "B"] "K" = "V" ∧
    sleptNanos [WEvent.addHeader "K" "V", WEvent.sleep 0, WEvent.status 404,
      WEvent.write "B"] = [0] ∧
    effBody [WEvent.write "this is example body"] = "this is example body" ∧
    sleptNanos [WEvent.sleep (-1000000000)] = [0] := by
  have h1 := dyn_engine_behavior_spec "/p"
    [("status", "404"), ("body", "B"), ("header", "K:V"), ("delay", "zz")]
    (by decide)
    [WEvent.addHeader "K" "V", WEvent.sleep 0, WEvent.status 404, WEvent.write "B"]
    (by decide)
  have h2 := dyn_engine_behavior_spec "/p"
    [("b64_body", "dGhpcyBpcyBleGFtcGxlIGJvZHk=")] (by decide)
    [WEvent.write "this is example body"] (by decide)
  have h3 := dyn_engine_behavior_spec "/p"
    [("delay", "99999999999999999999")] (by decide)
    [WEvent.sleep (-1000000000)] (by decide)
  refine ⟨h1.1 (by decide), h1.2.1 (by decide), ?_, ?_, ?_, ?_⟩
  · exact h1.2.2.2.1 "K:V" "K" "V" (by decide) (by decide)
  · exact h1.2.2.2.2.2 "zz" (by decide) (by decide) (by decide)
  · exact h2.2.2.1 "this is example body" (by decide) (by decide)
  · exact h3.2.2.2.2.2 "99999999999999999999" (by decide) (by decide) (by decide)

theorem effBody_base (domain version b ct : String) (nv : Bool) :
    effBody ([WEvent.setHeader "Server" domain] ++
      (if nv then [] else [WEvent.setHeader "X-Interactsh-Version" version]) ++
      [WEvent.write b, WEvent.setHeader "Content-Type" ct]) = b := by
  cases nv <;> simp [effBody, strConcat, str_append_empty]

theorem headerGet_base_ct (domain version b ct : String) (nv : Bool) :
    headerGet ([WEvent.setHeader "Server" domain] ++
      (if nv then [] else [WEvent.setHeader "X-Interactsh-Version" version]) ++
      [WEvent.write b, WEvent.setHeader "Content-Type" ct]) "Content-Type" = ct := by
  have hck : canonKey "Content-Type" = "Content-Type" := by decide
  have hcs : canonKey "Server" = "Server" := by decide
  have hcv : canonKey "X-Interactsh-Version" = "X-Interactsh-Version" := by decide
  cases nv <;>
    simp [headerGet, effHeaders, applyHeaderEvent, hck, hcs, hcv]

/-- C8: a request reaching the default data-plane handler whose path ends in
`.json` (matching no earlier-priority branch) is answered with body
`{"data":"<reflection>"}` and `Content-Type: application/json`; likewise a
path ending in `.xml` is answered with `<data><reflection></data>` and
`Content-Type: application/xml`. Headers set after the body write reach the
client because the `logger` wrapper copies the recorder's full header map. -/
theorem default_json_xml_spec (o : HSOptions) (m : String → Bool) (idLen : Nat)
    (host path : String) (query : List (String × String)) (refl : String)
    (hrefl : URLReflection m idLen host = some refl)
    (hs : ¬(hasPrefixI path "/s/" = true ∧ o.staticEnabled = true))
    (hroot : ¬(path = "/" ∧ refl = ""))
    (hrobots : equalFoldASCII path "/robots.txt" = false) :
    (hasSuffixI path ".json" = true →
      ∃ tr, defaultHandler o m idLen host path query = some tr ∧
        effBody tr = "\x7b\"data\":\"" ++ refl ++ "\"\x7d" ∧
        headerGet tr "Content-Type" = "application/json") ∧
    (hasSuffixI path ".json" = false → hasSuffixI path ".xml" = true →
      ∃ tr, defaultHandler o m idLen host path query = some tr ∧
        effBody tr = "<data>" ++ refl ++ "</data>" ∧
        headerGet tr "Content-Type" = "application/xml") := by
  have hrob : ¬(equalFoldASCII path "/robots.txt" = true) := by simp [hrobots]
  constructor
  · intro hjson
    refine ⟨[WEvent.setHeader "Server" (extractServerDomain o host)] ++
      (if o.noVersionHeader then []
       else [WEvent.setHeader "X-Interactsh-Version" o.version]) ++
      [WEvent.write ("\x7b\"data\":\"" ++ refl ++ "\"\x7d"),
       WEvent.setHeader "Content-Type" "application/json"],
      ?_, effBody_base _ _ _ _ _, headerGet_base_ct _ _ _ _ _⟩
    unfold defaultHandler
    simp only [hrefl]
    rw [if_neg hs, if_neg hroot, if_neg hrob, if_pos hjson]
  · intro hjson hxml
    have hj : ¬(hasSuffixI path ".json" = true) := by simp [hjson]
    refine ⟨[WEvent.setHeader "Server" (extractServerDomain o host)] ++
      (if o.noVersionHeader then []
       else [WEvent.setHeader "X-Interactsh-Version" o.version]) ++
      [WEvent.write ("<data>" ++ refl ++ "</data>"),
       WEvent.setHeader "Content-Type" "application/xml"],
      ?_, effBody_base _ _ _ _ _, headerGet_base_ct _ _ _ _ _⟩
    unfold defaultHandler
    simp only [hrefl]
    rw [if_neg hs, if_neg hroot, if_neg hrob, if_neg hj, if_pos hxml]

/-- C8 witness: concrete `.json` and `.xml` requests carrying the token
`tok` in the host. -/
theorem default_json_xml_witness :
    (∃ tr, defaultHandler ⟨["example.com"], "", "1.0", false, false, false, ""⟩
        (fun s => s == "tok") 3 "tok.a.b" "/x.json" [] = some tr ∧
      effBody tr = "\x7b\"data\":\"kot\"\x7d" ∧
      headerGet tr "Content-Type" = "application/json") ∧
    (∃ tr, defaultHandler ⟨["example.com"], "", "1.0", false, false, false, ""⟩
        (fun s => s == "tok") 3 "tok.a.b" "/x.xml" [] = some tr ∧
      effBody tr = "<data>kot</data>" ∧
      headerGet tr "Content-Type" = "application/xml") := by
  constructor
  · have h := (default_json_xml_spec ⟨["example.com"], "", "1.0", false, false, false, ""⟩
      (fun s => s == "tok") 3 "tok.a.b" "/x.json" [] "kot" (by decide)
      (by simp) (by simp) (by decide)).1 (by decide)
    obtain ⟨tr, h1, h2, h3⟩ := h
    refine ⟨tr, h1, ?_, h3⟩
    rw [h2]
    decide
  · have h := (default_json_xml_spec ⟨["example.com"], "", "1.0", false, false, false, ""⟩
      (fun s => s == "tok") 3 "tok.a.b" "/x.xml" [] "kot" (by decide)
      (by simp) (by simp) (by decide)).2 (by decide) (by decide)
    obtain ⟨tr, h1, h2, h3⟩ := h
    refine ⟨tr, h1, ?_, h3⟩
    rw [h2]
    decide

/-- C6: in url-only scanning mode the URL is split on `.`, `\n`, `\t`, `/`; a
width-`L_ID + L_N` sliding window is lowercase-normalised and checked with the
matcher; a match of a window of part `i` stores an interaction whose `full_id`
is the join of parts `[0..i]` on `.`, whose `unique_id` is the normalised
matched substring, and which is appended under the correlation id formed by
the first `L_ID` characters of the token — and conversely every such match is
stored. The matcher accepts only full-width tokens and `L_ID ≤ L_ID + L_N`
(the spec's token shape). -/
theorem urlonly_scan_spec (m : String → Bool) (cid idLen : Nat) (url : String)
    (hm : ∀ s, m s = true → strLen s = idLen) (hcid : cid ≤ idLen) :
    (∀ x ∈ urlOnlyScan m cid idLen url,
      ∃ i chunk, i < (splitAny url ['.', '\n', '\t', '/']).length ∧
        chunk ∈ slideWithLength ((splitAny url ['.', '\n', '\t', '/']).getD i "") idLen ∧
        m (lowerStr chunk) = true ∧
        x = some ⟨strTake (lowerStr chunk) cid, lowerStr chunk,
          strJoin "." ((splitAny url ['.', '\n', '\t', '/']).take (i + 1))⟩) ∧
    (∀ i chunk, i < (splitAny url ['.', '\n', '\t', '/']).length →
      chunk ∈ slideWithLength ((splitAny url ['.', '\n', '\t', '/']).getD i "") idLen →
      m (lowerStr chunk) = true →
      (some ⟨strTake (lowerStr chunk) cid, lowerStr chunk,
        strJoin "." ((splitAny url ['.', '\n', '\t', '/']).take (i + 1))⟩ :
        Option StoredInteraction) ∈ urlOnlyScan m cid idLen url) := by
  have hhandle : ∀ chunk fid, m (lowerStr chunk) = true →
      handleInteraction cid (lowerStr chunk) fid =
        some ⟨strTake (lowerStr chunk) cid, lowerStr chunk, fid⟩ := by
    intro chunk fid hmc
    have hlen : strLen (lowerStr chunk) = idLen := hm _ hmc
    unfold handleInteraction
    rw [if_pos (by rw [hlen]; exact hcid)]
  constructor
  · intro x hx
    simp only [urlOnlyScan] at hx
    rcases List.mem_flatMap.mp hx with ⟨i, hirange, hx2⟩
    have hi : i < (splitAny url ['.', '\n', '\t', '/']).length := List.mem_range.mp hirange
    rcases List.mem_filterMap.mp hx2 with ⟨chunk, hchunk, hf⟩
    by_cases hmc : m (lowerStr chunk) = true
    · rw [if_pos hmc, Option.some.injEq] at hf
      refine ⟨i, chunk, hi, hchunk, hmc, ?_⟩
      rw [← hf, if_pos (Nat.succ_le_of_lt hi), hhandle chunk _ hmc]
    · rw [if_neg hmc] at hf
      exact absurd hf (by simp)
  · intro i chunk hi hchunk hmc
    simp only [urlOnlyScan]
    refine List.mem_flatMap.mpr ⟨i, List.mem_range.mpr hi, ?_⟩
    refine List.mem_filterMap.mpr ⟨chunk, hchunk, ?_⟩
    rw [if_pos hmc, if_pos (Nat.succ_le_of_lt hi), hhandle chunk _ hmc]

/-- C6 witness: a full-width matcher finds the 33-character token as the first
part of a concrete request URL and stores it under its first 20 characters. -/
theorem urlonly_scan_witness :
    (some ⟨strTake (lowerStr "c6rj61aciaeutn2ae680cgabcdefghijk") 20,
      lowerStr "c6rj61aciaeutn2ae680cgabcdefghijk",
      strJoin "."
        ((splitAny "c6rj61aciaeutn2ae680cgabcdefghijk.interactsh.com/x"
          ['.', '\n', '\t', '/']).take 1)⟩ : Option StoredInteraction) ∈
      urlOnlyScan (fun s => decide (strLen s = 33)) 20 33
        "c6rj61aciaeutn2ae680cgabcdefghijk.interactsh.com/x" :=
  (urlonly_scan_spec (fun s => decide (strLen s = 33)) 20 33
      "c6rj61aciaeutn2ae680cgabcdefghijk.interactsh.com/x"
      (fun s h => of_decide_eq_true h) (by decide)).2
    0 "c6rj61aciaeutn2ae680cgabcdefghijk" (by decide) (by decide) (by decide)

end Interactsh
